import Mathlib

/-!
Shallow embedding of `scripts/generate-content.js` (skylink_website):
the metadata text parser, the asset resolver, the three collection
builders (projects, news, team) with their sort policies, and the stats
parser.  String primitives are modelled over `List Char` so that every
definition evaluates by kernel reduction.  External capabilities
(filesystem, locale collation, `Number()` coercion) are modelled
explicitly and documented at their definitions.
-/

namespace Skylink

/-- Whitespace characters removed by the JavaScript string trim operation
(ASCII fragment; the content handled by the script is ASCII-range text). -/
def isJsWhitespace (c : Char) : Bool :=
  c = ' ' || c = '\t' || c = '\n' || c = '\r' || c = '\x0B' || c = '\x0C'

/-- Drop leading and trailing JS whitespace from a character list. -/
def trimChars (l : List Char) : List Char :=
  ((l.dropWhile isJsWhitespace).reverse.dropWhile isJsWhitespace).reverse

/-- Models `String.prototype.trim()`. -/
def jsTrim (s : String) : String := ⟨trimChars s.data⟩

/-- Three-way code-point comparison of character lists: the sign convention
of a JavaScript comparator (-1 / 0 / 1). -/
def charListCmp : List Char → List Char → Int
  | [], [] => 0
  | [], _ :: _ => -1
  | _ :: _, [] => 1
  | a :: as, b :: bs => if a < b then -1 else if b < a then 1 else charListCmp as bs

/-- Models `a.localeCompare(b)` (default locale).  Collation is an external
capability of the host; it is modelled as code-point order, with which it
coincides on the ASCII strings (ISO date strings, slugs) it is applied to. -/
def jsCompare (a b : String) : Int := charListCmp a.data b.data

/-- Models `a.localeCompare(b, "pl")` (Polish collation).  The external
collation is modelled as code-point order, with which it coincides on the
ASCII titles and names used in the examples. -/
def plCompare (a b : String) : Int := charListCmp a.data b.data

/-- Models `String.prototype.toLowerCase()` (ASCII case mapping). -/
def jsToLower (s : String) : String := ⟨s.data.map Char.toLower⟩

/-- Models `s.includes(pat)`: substring containment. -/
def containsSub (s pat : String) : Bool := decide (pat.data <:+: s.data)

/-- Models `String.prototype.split` with a literal separator pattern:
left-to-right scan, non-overlapping matches.  `acc` holds the characters
of the current piece in reverse. -/
def splitSepAux (sep : List Char) : List Char → List Char → List (List Char)
  | [], acc => [acc.reverse]
  | c :: cs, acc =>
    if sep.isPrefixOf (c :: cs) then
      acc.reverse :: splitSepAux sep (cs.drop (sep.length - 1)) []
    else
      splitSepAux sep cs (c :: acc)
termination_by l _ => l.length
decreasing_by
  all_goals simp [List.length_drop]
  omega

/-- Split a character list on a literal separator. -/
def splitSep (sep l : List Char) : List (List Char) := splitSepAux sep l []

/-- Models `Array.prototype.join(sep)`. -/
def joinSep (sep : List Char) : List (List Char) → List Char
  | [] => []
  | [x] => x
  | x :: y :: rest => x ++ sep ++ joinSep sep (y :: rest)

/-- Models splitting on the line-break pattern of the script (`\r?\n`):
split at each newline, removing one carriage return directly before a
consumed newline.  `acc` holds the current line in reverse. -/
def splitLinesAux : List Char → List Char → List (List Char)
  | [], acc => [acc.reverse]
  | c :: cs, acc =>
    if c = '\n' then
      (match acc with
        | '\r' :: r => r
        | l => l).reverse :: splitLinesAux cs []
    else splitLinesAux cs (c :: acc)

/-- The lines of a string, as split by the script's line-break pattern. -/
def jsLines (s : String) : List String := (splitLinesAux s.data []).map (fun cs => ⟨cs⟩)

/-- Models `line.indexOf(c)`: index of the first occurrence, if any. -/
def charIndexOf (s : String) (c : Char) : Option Nat := s.data.findIdx? (· = c)

/-- Models a JavaScript object property assignment `m[k] = v`: an existing
key keeps its insertion position and gets the new value; a new key is
appended. -/
def objInsert (m : List (String × α)) (k : String) (v : α) : List (String × α) :=
  if m.any (fun p => p.1 == k) then
    m.map (fun p => if p.1 == k then (k, v) else p)
  else m ++ [(k, v)]

/-- The delimiter on which `parseMetaTxt` splits: the literal `---` flanked
by newlines (the regex `\n---\n` of the source). -/
def metaDelim : List Char := "\n---\n".data

/-- One header line of a metadata document, as processed by `parseMetaTxt`:
blank lines and lines without a colon are dropped; otherwise the text
before the first colon (trimmed) is the key and the rest (trimmed) the
value, assigned into the header object. -/
def headInsertLine (m : List (String × String)) (line : String) : List (String × String) :=
  if (trimChars line.data).isEmpty then m
  else
    match charIndexOf line ':' with
    | none => m
    | some idx => objInsert m (jsTrim ⟨line.data.take idx⟩) (jsTrim ⟨line.data.drop (idx + 1)⟩)

/-- The header object built from a header block. -/
def parseHead (s : String) : List (String × String) :=
  (jsLines s).foldl headInsertLine []

/-- Result of `parseMetaTxt`: the spread header object together with the
`description` property, which is always assigned last. -/
structure MetaDoc where
  head : List (String × String)
  description : String
deriving DecidableEq

/-- Property lookup on the parse result: `description` was assigned after
the spread of the header, so it wins over any header key of that name. -/
def MetaDoc.get (m : MetaDoc) (k : String) : Option String :=
  if k == "description" then some m.description
  else (m.head.filter (fun p => p.1 == k)).getLast?.map (fun p => p.2)

/-- Embedding of `parseMetaTxt` (source lines 17-30): split on the first
`\n---\n` delimiters, parse the part before the first one as header lines,
rejoin everything after it with the delimiter and trim it as the body. -/
def parseMetaTxt (txt : String) : MetaDoc :=
  let parts := splitSep metaDelim txt.data
  let headRaw : List Char := parts.headD []
  let rest := parts.tail
  let head := (jsLines ⟨headRaw⟩).foldl headInsertLine []
  let body : String := if rest.isEmpty then "" else ⟨trimChars (joinSep metaDelim rest)⟩
  ⟨head, body⟩

/-- Nat value of a list of decimal digit characters. -/
def natOfDigits (l : List Char) : Nat :=
  l.foldl (fun n c => 10 * n + (c.toNat - 48)) 0

/-- Exponent suffix of a decimal numeric literal: empty means exponent 0;
otherwise `e`/`E`, an optional sign and at least one digit, consuming the
whole remainder. -/
def parseExp : List Char → Option Int
  | [] => some 0
  | c :: r =>
    if c = 'e' ∨ c = 'E' then
      match r with
      | '+' :: d => if d ≠ [] ∧ d.all Char.isDigit then some (natOfDigits d : Int) else none
      | '-' :: d => if d ≠ [] ∧ d.all Char.isDigit then some (-(natOfDigits d : Int)) else none
      | d => if d ≠ [] ∧ d.all Char.isDigit then some (natOfDigits d : Int) else none
    else none

/-- Unsigned decimal literal: digits with an optional fraction, or a bare
fraction, followed by an optional exponent; anything else is not a number. -/
def parseUnsignedDec (l : List Char) : Option ℚ :=
  let intPart := l.takeWhile Char.isDigit
  let rest1 := l.dropWhile Char.isDigit
  match rest1 with
  | '.' :: rest2 =>
    let fracPart := rest2.takeWhile Char.isDigit
    let rest3 := rest2.dropWhile Char.isDigit
    if intPart.isEmpty ∧ fracPart.isEmpty then none
    else
      (parseExp rest3).map (fun e =>
        ((natOfDigits intPart : ℚ) + (natOfDigits fracPart : ℚ) / (10 : ℚ) ^ fracPart.length)
          * (10 : ℚ) ^ e)
  | _ =>
    if intPart.isEmpty then none
    else (parseExp rest1).map (fun e => (natOfDigits intPart : ℚ) * (10 : ℚ) ^ e)

/-- Decimal body after an optional sign: the literal `Infinity` is a valid
numeric literal but not finite, so it yields no finite value. -/
def parseDecBody (l : List Char) : Option ℚ :=
  if l = "Infinity".data then none else parseUnsignedDec l

/-- Signed decimal literal. -/
def parseSignedDec : List Char → Option ℚ
  | '+' :: r => parseDecBody r
  | '-' :: r => (parseDecBody r).map (fun q => -q)
  | l => parseDecBody l

/-- Digit value for radix literals (hex letters included); 99 marks a
non-digit. -/
def radixDigitVal (c : Char) : Nat :=
  if '0' ≤ c ∧ c ≤ '9' then c.toNat - 48
  else if 'a' ≤ c ∧ c ≤ 'f' then c.toNat - 87
  else if 'A' ≤ c ∧ c ≤ 'F' then c.toNat - 55
  else 99

/-- Unsigned radix literal body (after `0x`, `0o` or `0b`). -/
def parseRadix (b : Nat) (l : List Char) : Option ℚ :=
  if l ≠ [] ∧ l.all (fun c => radixDigitVal c < b) then
    some ((l.foldl (fun n c => b * n + radixDigitVal c) 0 : Nat) : ℚ)
  else none

/-- Models the external JavaScript `Number()` string coercion combined with
the `Number.isFinite` test of the source: `some q` when the coercion yields
a finite number (its exact value as a rational), `none` when it yields NaN
or an infinity.  The ECMAScript string numeric grammar is followed (trimmed
input, empty string is 0, signed decimal literals with fraction and
exponent, `Infinity`, unsigned hex / octal / binary literals); the overflow
of astronomically large decimal literals to the IEEE infinity is not
modelled. -/
def jsNumber (s : String) : Option ℚ :=
  let l := trimChars s.data
  match l with
  | [] => some 0
  | '0' :: c :: r =>
    if c = 'x' ∨ c = 'X' then parseRadix 16 r
    else if c = 'o' ∨ c = 'O' then parseRadix 8 r
    else if c = 'b' ∨ c = 'B' then parseRadix 2 r
    else parseSignedDec l
  | _ => parseSignedDec l

/-- Reasons a filesystem directory listing can fail. -/
inductive FsErr
  | notFound
  | permissionDenied
  | otherFailure
deriving DecidableEq

/-- Kind of a directory entry, as distinguished by `withFileTypes`. -/
inductive EntryKind
  | dir
  | file
  | otherKind
deriving DecidableEq

/-- A directory entry (`fs.Dirent`). -/
structure Dirent where
  name : String
  kind : EntryKind
deriving DecidableEq

/-- Models `dirent.isDirectory()`. -/
def Dirent.isDirectory (d : Dirent) : Bool :=
  match d.kind with
  | EntryKind.dir => true
  | _ => false

/-- Models `dirent.isFile()`. -/
def Dirent.isFile (d : Dirent) : Bool :=
  match d.kind with
  | EntryKind.file => true
  | _ => false

/-- Snapshot of the filesystem state one collector sees: the listing of its
collection root (which can fail), the per-slug attempt to read `meta.txt`
(`none` models any read failure), the per-slug existence probe for an asset
candidate filename, and the per-slug listing of the `gallery` subdirectory. -/
structure Fs where
  rootDir : Except FsErr (List Dirent)
  readMeta : String → Option String
  assetExists : String → String → Bool
  galleryDir : String → Except FsErr (List Dirent)

/-- Embedding of `readDirIfExists` (source lines 32-38): the listing result
on success, and the empty list on ANY failure — the catch is bare, so every
error reason is contained, not only absence. -/
def readDirIfExists (res : Except FsErr (List Dirent)) : List Dirent :=
  match res with
  | Except.ok l => l
  | Except.error _ => []

/-- Embedding of the cover/photo resolution loop: try the candidates in
order, returning the public path of the first one whose existence probe
succeeds, else `none`. -/
def resolveAsset (exists? : String → Bool) (pub : String → String) : List String → Option String
  | [] => none
  | c :: rest => if exists? c then some (pub c) else resolveAsset exists? pub rest

/-- Cover image candidates, in source order. -/
def coverCandidates : List String := ["cover.png", "cover.jpg", "cover.jpeg", "cover.webp"]

/-- Photo candidates for team members, in source order. -/
def photoCandidates : List String := ["photo.png", "photo.jpg", "photo.jpeg", "photo.webp"]

/-- A produced project record. -/
structure Proj where
  slug : String
  title : String
  date : Option String
  tags : List String
  status : String
  links : Option String
  cover : Option String
  gallery : List String
  description : String
  path : String
deriving DecidableEq

/-- A produced news record. -/
structure NewsRec where
  slug : String
  title : String
  date : Option String
  author : String
  cover : Option String
  description : String
  path : String
deriving DecidableEq

/-- A produced team-member record. -/
structure TeamMember where
  slug : String
  name : String
  role : String
  email : String
  links : String
  photo : Option String
  bio : String
deriving DecidableEq

/-- JavaScript truthiness of a possibly-null string: null and the empty
string are falsy. -/
def strTruthy : Option String → Bool
  | none => false
  | some s => decide (s ≠ "")

/-- The string behind a truthy optional (used only under a truthiness
guard). -/
def optStr (o : Option String) : String := o.getD ""

/-- Embedding of the projects comparator (source lines 91-96). -/
def projectCmp (a b : Proj) : Int :=
  if strTruthy a.date && strTruthy b.date then jsCompare (optStr b.date) (optStr a.date)
  else if strTruthy a.date then -1
  else if strTruthy b.date then 1
  else plCompare a.title b.title

/-- Embedding of the news comparator (source line 141). -/
def newsCmp (a b : NewsRec) : Int :=
  if strTruthy a.date && strTruthy b.date then jsCompare (optStr b.date) (optStr a.date)
  else jsCompare a.slug b.slug

/-- The role priority table of `collectTeam`, in its own iteration order. -/
def rolePriority : List (String × Int) := [("president", 3), ("leader", 2), ("head", 1)]

/-- Score of a role string: the value of the first table entry whose key
occurs as a substring of the lower-cased role, else 0. -/
def roleScore (role : String) : Int :=
  match rolePriority.find? (fun kv => containsSub (jsToLower role) kv.1) with
  | some kv => kv.2
  | none => 0

/-- Embedding of the team comparator (source lines 191-200). -/
def teamCmp (a b : TeamMember) : Int :=
  if roleScore a.role ≠ roleScore b.role then roleScore b.role - roleScore a.role
  else plCompare a.name b.name

/-- Stable insertion of one element into a sorted-by-comparator list: the
new element goes after every earlier element it does not strictly precede. -/
def insertCmp (cmp : α → α → Int) (x : α) : List α → List α
  | [] => [x]
  | y :: ys => if cmp x y < 0 then x :: y :: ys else y :: insertCmp cmp x ys

/-- Models `Array.prototype.sort(cmp)`: a stable sort by the comparator. -/
def sortByCmp (cmp : α → α → Int) (l : List α) : List α :=
  l.foldl (fun acc x => insertCmp cmp x acc) []

/-- Processing of one directory entry of the projects root (the body of the
loop at source lines 45-89): non-directories and entries whose `meta.txt`
cannot be read contribute nothing. -/
def projectOfDirent (fs : Fs) (d : Dirent) : Option Proj :=
  if !d.isDirectory then none
  else
    let slug := d.name
    match fs.readMeta slug with
    | none => none
    | some metaTxt =>
      let meta := parseMetaTxt metaTxt
      let cover := resolveAsset (fs.assetExists slug)
        (fun c => "/content/projects/" ++ slug ++ "/" ++ c) coverCandidates
      let gallery := (readDirIfExists (fs.galleryDir slug)).filterMap
        (fun g => if g.isFile then some ("/content/projects/" ++ slug ++ "/gallery/" ++ g.name)
                  else none)
      some
        { slug := slug
          title := (meta.get "title").getD slug
          date := meta.get "date"
          tags := (((splitSep [','] ((meta.get "tags").getD "").data).map
            (fun cs => jsTrim ⟨cs⟩)).filter (fun s => !s.data.isEmpty))
          status := (meta.get "status").getD "active"
          links := meta.get "links"
          cover := cover
          gallery := gallery
          description := meta.description
          path := "/content/projects/" ++ slug ++ "/" }

/-- Embedding of `collectProjects` (source lines 40-99). -/
def collectProjects (fs : Fs) : List Proj :=
  sortByCmp projectCmp ((readDirIfExists fs.rootDir).filterMap (projectOfDirent fs))

/-- Processing of one directory entry of the news root (the loop body at
source lines 106-138). -/
def newsOfDirent (fs : Fs) (d : Dirent) : Option NewsRec :=
  if !d.isDirectory then none
  else
    let slug := d.name
    match fs.readMeta slug with
    | none => none
    | some metaTxt =>
      let meta := parseMetaTxt metaTxt
      let cover := resolveAsset (fs.assetExists slug)
        (fun c => "/content/news/" ++ slug ++ "/" ++ c) coverCandidates
      some
        { slug := slug
          title := (meta.get "title").getD slug
          date := meta.get "date"
          author := (meta.get "author").getD "Skylink"
          cover := cover
          description := meta.description
          path := "/content/news/" ++ slug ++ "/" }

/-- Embedding of `collectNews` (source lines 101-143). -/
def collectNews (fs : Fs) : List NewsRec :=
  sortByCmp newsCmp ((readDirIfExists fs.rootDir).filterMap (newsOfDirent fs))

/-- Processing of one directory entry of the team root (the loop body at
source lines 150-183). -/
def teamOfDirent (fs : Fs) (d : Dirent) : Option TeamMember :=
  if !d.isDirectory then none
  else
    let slug := d.name
    match fs.readMeta slug with
    | none => none
    | some metaTxt =>
      let meta := parseMetaTxt metaTxt
      let photo := resolveAsset (fs.assetExists slug)
        (fun c => "/content/team/" ++ slug ++ "/" ++ c) photoCandidates
      some
        { slug := slug
          name := (meta.get "name").getD slug
          role := (meta.get "role").getD ""
          email := (meta.get "email").getD ""
          links := (meta.get "links").getD ""
          photo := photo
          bio := meta.description }

/-- Embedding of `collectTeam` (source lines 145-203). -/
def collectTeam (fs : Fs) : List TeamMember :=
  sortByCmp teamCmp ((readDirIfExists fs.rootDir).filterMap (teamOfDirent fs))

/-- A stats value: a finite number, or the raw trimmed string. -/
inductive StatsVal
  | num (q : ℚ)
  | str (s : String)
deriving DecidableEq

/-- Processing of one line of `stats.txt` (the loop body at source lines
210-218). -/
def statsInsertLine (m : List (String × StatsVal)) (line : String) : List (String × StatsVal) :=
  if (trimChars line.data).isEmpty then m
  else
    match charIndexOf line ':' with
    | none => m
    | some idx =>
      let key := jsTrim ⟨line.data.take idx⟩
      let valueRaw := jsTrim ⟨line.data.drop (idx + 1)⟩
      match jsNumber valueRaw with
      | some q => objInsert m key (StatsVal.num q)
      | none => objInsert m key (StatsVal.str valueRaw)

/-- Embedding of `collectStats` (source lines 205-223): `statsTxt` is the
attempted read of `content/stats/stats.txt`, `none` modelling any read
failure, which the catch turns into an empty map. -/
def collectStats (statsTxt : Option String) : List (String × StatsVal) :=
  match statsTxt with
  | some txt => (jsLines txt).foldl statsInsertLine []
  | none => []

/-- Example project records of the spec's sort example (dates descending,
then locale-ordered titles for dateless items). -/
def exProjA : Proj :=
  ⟨"a", "Alpha", some "2024-01-01", [], "active", none, none, [], "", "/content/projects/a/"⟩

/-- Example project B: the newest dated item. -/
def exProjB : Proj :=
  ⟨"b", "Beta", some "2024-06-01", [], "active", none, none, [], "", "/content/projects/b/"⟩

/-- Example project C: dateless, title Zeta. -/
def exProjC : Proj :=
  ⟨"c", "Zeta", none, [], "active", none, none, [], "", "/content/projects/c/"⟩

/-- Example project D: dateless, title Alfa. -/
def exProjD : Proj :=
  ⟨"d", "Alfa", none, [], "active", none, none, [], "", "/content/projects/d/"⟩

/-- Example team member with role Team Leader. -/
def exTeamL : TeamMember := ⟨"m1", "Bob", "Team Leader", "", "", none, ""⟩

/-- Example team member with role President. -/
def exTeamP : TeamMember := ⟨"m2", "Ala", "President", "", "", none, ""⟩

/-- Example team member with role Member. -/
def exTeamM : TeamMember := ⟨"m3", "Cid", "Member", "", "", none, ""⟩

/-- Example team member with role Head of Logistics. -/
def exTeamH : TeamMember := ⟨"m4", "Dan", "Head of Logistics", "", "", none, ""⟩

/-- Example dated news record whose slug sorts after the dateless one. -/
def exNewsDated : NewsRec := ⟨"z", "T1", some "2024-05-01", "Skylink", none, "", "/content/news/z/"⟩

/-- Example dateless news record. -/
def exNewsNoDate : NewsRec := ⟨"a", "T2", none, "Skylink", none, "", "/content/news/a/"⟩

/-- A filesystem snapshot whose collection-root listing fails with a
permission error (a failure unrelated to expected absence). -/
def fsDenied : Fs :=
  ⟨Except.error FsErr.permissionDenied, fun _ => none, fun _ _ => false,
    fun _ => Except.error FsErr.notFound⟩

/-- The typing discipline of a stored stats value: numbers are exactly the
values some string coerces to finitely, strings are exactly the values
whose coercion is not finite. -/
def statsOk : String × StatsVal → Prop
  | (_, StatsVal.num q) => ∃ s, jsNumber s = some q
  | (_, StatsVal.str s) => jsNumber s = none

/-- A one-project filesystem snapshot: a single directory entry whose
metadata document is present but empty. -/
def fsOne : Fs :=
  ⟨Except.ok [⟨"p", EntryKind.dir⟩], fun _ => some "", fun _ _ => false,
    fun _ => Except.error FsErr.notFound⟩

/-- The project record produced from `fsOne`. -/
def rProjOne : Proj := ⟨"p", "p", none, [], "active", none, none, [], "", "/content/projects/p/"⟩

/-- The news record produced from `fsOne`. -/
def rNewsOne : NewsRec := ⟨"p", "p", none, "Skylink", none, "", "/content/news/p/"⟩

/-- The team record produced from `fsOne`. -/
def rTeamOne : TeamMember := ⟨"p", "p", "", "", "", none, ""⟩

end Skylink

namespace Skylink

/-! Helper lemmas about the splitting primitives. -/

lemma isPrefixOfIff : ∀ (p l : List Char), p.isPrefixOf l = true ↔ ∃ t, p ++ t = l := by
  intro p
  induction p with
  | nil => intro l; simp [List.isPrefixOf]
  | cons a as ih =>
    intro l
    cases l with
    | nil => simp [List.isPrefixOf]
    | cons b bs =>
      simp only [List.isPrefixOf, Bool.and_eq_true, beq_iff_eq, ih bs, List.cons_append,
        List.cons.injEq]
      constructor
      · rintro ⟨rfl, t, rfl⟩; exact ⟨t, rfl, rfl⟩
      · rintro ⟨t, rfl, rfl⟩; exact ⟨rfl, t, rfl⟩

lemma withinCons {sep cs : List Char} {c : Char} (h : sep <:+: cs) : sep <:+: c :: cs := by
  obtain ⟨s, t, rfl⟩ := h
  exact ⟨c :: s, t, rfl⟩

lemma splitSepAuxNe (sep : List Char) : ∀ (l acc : List Char), splitSepAux sep l acc ≠ [] := by
  intro l acc
  induction l, acc using splitSepAux.induct sep with
  | case1 acc => simp [splitSepAux]
  | case2 c cs acc hpre ih => simp [splitSepAux, hpre]
  | case3 c cs acc hpre ih =>
    rw [splitSepAux, if_neg hpre]
    exact ih

lemma joinSplit (sep : List Char) (hsep : sep ≠ []) :
    ∀ (l acc : List Char), joinSep sep (splitSepAux sep l acc) = acc.reverse ++ l := by
  intro l acc
  induction l, acc using splitSepAux.induct sep with
  | case1 acc => rw [splitSepAux]; simp [joinSep]
  | case2 c cs acc hpre ih =>
    obtain ⟨t, ht⟩ := (isPrefixOfIff sep (c :: cs)).mp hpre
    have hcs : sep.drop 1 ++ t = cs := by
      cases sep with
      | nil => exact absurd rfl hsep
      | cons s ss =>
        simp only [List.cons_append, List.cons.injEq] at ht
        simpa using ht.2
    have hdrop : cs.drop (sep.length - 1) = t := by
      rw [← hcs]
      have hl : (sep.drop 1).length = sep.length - 1 := by simp
      rw [← hl, List.drop_left]
    rw [hdrop] at ih
    simp only [List.reverse_nil, List.nil_append] at ih
    obtain ⟨a, r, hL⟩ : ∃ a r, splitSepAux sep t [] = a :: r := by
      cases hE : splitSepAux sep t [] with
      | nil => exact absurd hE (splitSepAuxNe sep t [])
      | cons a r => exact ⟨a, r, rfl⟩
    rw [splitSepAux, if_pos hpre, hdrop, hL, joinSep, ← hL, ih, List.append_assoc, ht]
  | case3 c cs acc hpre ih =>
    rw [splitSepAux, if_neg hpre, ih]
    simp

lemma splitNoMatch (sep : List Char) :
    ∀ (l acc : List Char), ¬ sep <:+: l → splitSepAux sep l acc = [acc.reverse ++ l] := by
  intro l
  induction l with
  | nil => intro acc _; rw [splitSepAux]; simp
  | cons c cs ih =>
    intro acc h
    have hpre : sep.isPrefixOf (c :: cs) = false := by
      rcases hb : sep.isPrefixOf (c :: cs) with _ | _
      · rfl
      · obtain ⟨t, ht⟩ := (isPrefixOfIff _ _).mp hb
        exact absurd ⟨[], t, by simpa using ht⟩ h
    rw [splitSepAux, if_neg (by simp [hpre]), ih (c :: acc) (fun hin => h (withinCons hin))]
    simp

lemma splitFirst (sep : List Char) (hsep : sep ≠ []) :
    ∀ (pre post acc : List Char), ¬ sep <:+: (pre ++ sep.dropLast) →
      splitSepAux sep (pre ++ sep ++ post) acc = (acc.reverse ++ pre) :: splitSep sep post := by
  intro pre
  induction pre with
  | nil =>
    intro post acc _
    obtain ⟨s, ss, rfl⟩ := List.exists_cons_of_ne_nil hsep
    have hpre : (s :: ss).isPrefixOf (s :: (ss ++ post)) = true :=
      (isPrefixOfIff _ _).mpr ⟨post, by simp⟩
    simp only [List.nil_append, List.cons_append]
    rw [splitSepAux, if_pos hpre]
    have hdrop : (ss ++ post).drop ((s :: ss).length - 1) = post := by
      simp only [List.length_cons, Nat.add_sub_cancel]
      exact List.drop_left ss post
    rw [hdrop]
    simp [splitSep]
  | cons p pre2 ih =>
    intro post acc h
    simp only [List.cons_append] at h ⊢
    have hnp : sep.isPrefixOf (p :: (pre2 ++ sep ++ post)) = false := by
      rcases hb : sep.isPrefixOf (p :: (pre2 ++ sep ++ post)) with _ | _
      · rfl
      · exfalso
        apply h
        obtain ⟨t, ht⟩ := (isPrefixOfIff _ _).mp hb
        have hbig : p :: (pre2 ++ sep ++ post)
            = (p :: (pre2 ++ sep.dropLast)) ++ (sep.getLast hsep :: post) := by
          conv_lhs => rw [← List.dropLast_append_getLast hsep]
          simp [List.append_assoc]
        have hsp : sep <+: (p :: (pre2 ++ sep.dropLast)) := by
          have hpp : (p :: (pre2 ++ sep.dropLast)) <+: (p :: (pre2 ++ sep ++ post)) := by
            rw [hbig]; exact ⟨sep.getLast hsep :: post, rfl⟩
          have hlen : sep.length ≤ (p :: (pre2 ++ sep.dropLast)).length := by
            have h1 : 1 ≤ sep.length := by
              cases sep with
              | nil => exact absurd rfl hsep
              | cons x xs => simp
            simp only [List.length_cons, List.length_append, List.length_dropLast]
            omega
          exact List.prefix_of_prefix_length_le ⟨t, ht⟩ hpp hlen
        obtain ⟨t2, ht2⟩ := hsp
        exact ⟨[], t2, by simpa using ht2⟩
    rw [splitSepAux, if_neg (by rw [hnp]; simp)]
    rw [ih post (p :: acc) (fun hin => h (withinCons hin))]
    simp

lemma splitSepNe (sep l : List Char) : splitSep sep l ≠ [] := splitSepAuxNe sep l []

/-- How `parseMetaTxt` behaves on an input with a delimiter occurrence whose
text before it contains no earlier occurrence. -/
lemma parseMetaTxt_split (pre post : List Char)
    (h : ¬ metaDelim <:+: (pre ++ metaDelim.dropLast)) :
    parseMetaTxt ⟨pre ++ metaDelim ++ post⟩ =
      ⟨parseHead ⟨pre⟩, ⟨trimChars post⟩⟩ := by
  have hsep : metaDelim ≠ [] := by decide
  have hsplit : splitSep metaDelim (pre ++ metaDelim ++ post)
      = pre :: splitSep metaDelim post := by
    have := splitFirst metaDelim hsep pre post [] h
    simpa [splitSep] using this
  obtain ⟨a, r, hL⟩ : ∃ a r, splitSep metaDelim post = a :: r := by
    cases hE : splitSep metaDelim post with
    | nil => exact absurd hE (splitSepNe metaDelim post)
    | cons a r => exact ⟨a, r, rfl⟩
  have hjoin : joinSep metaDelim (a :: r) = post := by
    rw [← hL]
    simpa [splitSep] using joinSplit metaDelim hsep post []
  simp only [parseMetaTxt, hsplit, hL, List.headD, List.tail, List.isEmpty, parseHead]
  rw [hjoin]
  simp

end Skylink

namespace Skylink

/-- C2: for every input containing a well-formed `\n---\n` delimiter (no
earlier occurrence inside the text before it), `parseMetaTxt` returns the
header object parsed from exactly the lines before the first delimiter,
and a `description` equal to the trimmed text after the first delimiter
line, even when further `---` delimiter lines occur inside the body. -/
theorem meta_parse_delimited (pre post : String)
    (h : ¬ metaDelim <:+: (pre.data ++ metaDelim.dropLast)) :
    parseMetaTxt (pre ++ "\n---\n" ++ post) = ⟨parseHead pre, jsTrim post⟩ ∧
    (parseMetaTxt (pre ++ "\n---\n" ++ post)).get "description" = some (jsTrim post) := by
  have hS : (pre ++ "\n---\n" ++ post) = (⟨pre.data ++ metaDelim ++ post.data⟩ : String) :=
    String.ext (by simp [String.data_append, metaDelim])
  have h1 := parseMetaTxt_split pre.data post.data h
  constructor
  · rw [hS, h1]; rfl
  · rw [hS, h1, MetaDoc.get]
    simp [jsTrim]

/-- Witness for the C2 theorem at a concrete document whose body contains a
further `---` delimiter line. -/
theorem meta_parse_delimited_witness :
    parseMetaTxt ("title: Hi\nx" ++ "\n---\n" ++ " Body\n---\nmore ") =
      ⟨parseHead "title: Hi\nx", jsTrim " Body\n---\nmore "⟩ ∧
    (parseMetaTxt ("title: Hi\nx" ++ "\n---\n" ++ " Body\n---\nmore ")).get "description" =
      some (jsTrim " Body\n---\nmore ") :=
  meta_parse_delimited "title: Hi\nx" " Body\n---\nmore " (by decide)

/-- C3: for every input with no delimiter occurrence, the whole text parses
as header lines and the body is the empty string; `parseMetaTxt` is a total
function (its Lean type has no error case). -/
theorem meta_parse_no_delim (txt : String) (h : ¬ metaDelim <:+: txt.data) :
    parseMetaTxt txt = ⟨parseHead txt, ""⟩ := by
  have hsplit : splitSep metaDelim txt.data = [txt.data] := by
    simpa [splitSep] using splitNoMatch metaDelim txt.data [] h
  simp only [parseMetaTxt, hsplit, List.headD, List.tail, List.isEmpty, parseHead]
  simp

/-- Witness for the C3 theorem at a concrete delimiter-free document. -/
theorem meta_parse_no_delim_witness :
    parseMetaTxt "a: 1\nb" = ⟨parseHead "a: 1\nb", ""⟩ :=
  meta_parse_no_delim "a: 1\nb" (by decide)

/-! Helper lemmas about the comparison and sorting primitives. -/

lemma charListCmpNeg : ∀ (l₁ l₂ : List Char),
    charListCmp l₁ l₂ < 0 ↔ List.Lex (· < ·) l₁ l₂ := by
  intro l₁
  induction l₁ with
  | nil =>
    intro l₂
    cases l₂ with
    | nil =>
      simp only [charListCmp]
      constructor
      · omega
      · intro hx; cases hx
    | cons b bs =>
      simp only [charListCmp]
      constructor
      · intro _; exact List.Lex.nil
      · intro _; omega
  | cons a as ih =>
    intro l₂
    cases l₂ with
    | nil =>
      simp only [charListCmp]
      constructor
      · omega
      · intro hx; cases hx
    | cons b bs =>
      simp only [charListCmp]
      by_cases hab : a < b
      · simp only [hab, if_true]
        constructor
        · intro _; exact List.Lex.rel hab
        · intro _; omega
      · by_cases hba : b < a
        · simp only [hab, if_false, hba, if_true]
          constructor
          · omega
          · intro hx
            cases hx with
            | cons h => exact absurd hba (lt_irrefl _)
            | rel h => exact absurd h hab
        · have hx : a = b := le_antisymm (not_lt.mp hba) (not_lt.mp hab)
          subst hx
          simp only [hab, if_false, ih bs]
          constructor
          · intro hx; exact List.Lex.cons hx
          · intro hx
            cases hx with
            | cons h => exact h
            | rel h => exact absurd h hab

lemma charListCmpZero : ∀ (l₁ l₂ : List Char), charListCmp l₁ l₂ = 0 ↔ l₁ = l₂ := by
  intro l₁
  induction l₁ with
  | nil =>
    intro l₂
    cases l₂ <;> simp [charListCmp]
  | cons a as ih =>
    intro l₂
    cases l₂ with
    | nil => simp [charListCmp]
    | cons b bs =>
      simp only [charListCmp]
      by_cases hab : a < b
      · simp only [hab, if_true]
        constructor
        · omega
        · rintro ⟨rfl, rfl⟩; exact absurd hab (lt_irrefl a)
      · by_cases hba : b < a
        · simp only [hab, if_false, hba, if_true]
          constructor
          · omega
          · rintro ⟨rfl, rfl⟩; exact absurd hba (lt_irrefl a)
        · have hx : a = b := le_antisymm (not_lt.mp hba) (not_lt.mp hab)
          subst hx
          simp [hab, ih bs]

lemma memInsertCmp (cmp : α → α → Int) (x y : α) :
    ∀ l : List α, x ∈ insertCmp cmp y l ↔ x = y ∨ x ∈ l := by
  intro l
  induction l with
  | nil => simp [insertCmp]
  | cons z zs ih =>
    simp only [insertCmp]
    by_cases hc : cmp y z < 0
    · simp [hc]
    · simp only [hc, if_false, List.mem_cons, ih]
      tauto

lemma memSortFold (cmp : α → α → Int) (x : α) :
    ∀ (l acc : List α),
      (x ∈ l.foldl (fun acc y => insertCmp cmp y acc) acc ↔ x ∈ acc ∨ x ∈ l) := by
  intro l
  induction l with
  | nil => simp
  | cons z zs ih =>
    intro acc
    simp only [List.foldl_cons, ih, memInsertCmp, List.mem_cons]
    tauto

lemma memSortByCmp (cmp : α → α → Int) (x : α) (l : List α) :
    x ∈ sortByCmp cmp l ↔ x ∈ l := by
  simpa [sortByCmp] using memSortFold cmp x l []

end Skylink

namespace Skylink

lemma jsCompareNeg (a b : String) : jsCompare a b < 0 ↔ List.Lex (· < ·) a.data b.data :=
  charListCmpNeg a.data b.data

lemma jsCompareZero (a b : String) : jsCompare a b = 0 ↔ a = b := by
  rw [jsCompare, charListCmpZero]
  exact ⟨fun h => String.ext h, fun h => by rw [h]⟩

lemma plCompareNeg (a b : String) : plCompare a b < 0 ↔ List.Lex (· < ·) a.data b.data :=
  charListCmpNeg a.data b.data

/-- C4: the projects comparator compares two dated records by reverse
lexicographic date-string order (newer first), puts a dated record before a
dateless one, compares two dateless records by the (modelled) Polish-locale
title comparison ascending, and on the spec's example A, B, C, D the sorted
output is B, A, D, C. -/
theorem projects_sort_spec :
    (∀ (a b : Proj) (da db : String), a.date = some da → da ≠ "" → b.date = some db → db ≠ "" →
      ((projectCmp a b < 0 ↔ List.Lex (· < ·) db.data da.data) ∧
        (projectCmp a b = 0 ↔ db = da))) ∧
    (∀ a b : Proj, strTruthy a.date = true → strTruthy b.date = false → projectCmp a b = -1) ∧
    (∀ a b : Proj, strTruthy a.date = false → strTruthy b.date = true → projectCmp a b = 1) ∧
    (∀ a b : Proj, strTruthy a.date = false → strTruthy b.date = false →
      (projectCmp a b = plCompare a.title b.title ∧
        (projectCmp a b < 0 ↔ List.Lex (· < ·) a.title.data b.title.data))) ∧
    sortByCmp projectCmp [exProjA, exProjB, exProjC, exProjD] =
      [exProjB, exProjA, exProjD, exProjC] := by
  refine ⟨?_, ?_, ?_, ?_, by decide⟩
  · intro a b da db ha hda hb hdb
    have hcmp : projectCmp a b = jsCompare db da := by
      simp [projectCmp, ha, hb, strTruthy, hda, hdb, optStr]
    rw [hcmp]
    exact ⟨jsCompareNeg db da, jsCompareZero db da⟩
  · intro a b ha hb
    simp [projectCmp, ha, hb]
  · intro a b ha hb
    simp [projectCmp, ha, hb]
  · intro a b ha hb
    have hcmp : projectCmp a b = plCompare a.title b.title := by
      simp [projectCmp, ha, hb]
    rw [hcmp]
    exact ⟨rfl, plCompareNeg a.title b.title⟩

/-- Witness for the C4 theorem: its conditional parts applied at the
example records. -/
theorem projects_sort_spec_witness :
    ((projectCmp exProjA exProjB < 0 ↔
        List.Lex (· < ·) "2024-06-01".data "2024-01-01".data) ∧
      (projectCmp exProjA exProjB = 0 ↔ "2024-06-01" = "2024-01-01")) ∧
    projectCmp exProjA exProjC = -1 ∧
    projectCmp exProjC exProjA = 1 ∧
    projectCmp exProjD exProjC = plCompare exProjD.title exProjC.title :=
  ⟨projects_sort_spec.1 exProjA exProjB "2024-01-01" "2024-06-01" rfl (by decide) rfl (by decide),
   projects_sort_spec.2.1 exProjA exProjC (by decide) (by decide),
   projects_sort_spec.2.2.1 exProjC exProjA (by decide) (by decide),
   (projects_sort_spec.2.2.2.1 exProjD exProjC (by decide) (by decide)).1⟩

/-- C5: the team sort scores a role by scanning the priority table
president(3), leader(2), head(1) in its own order on the lower-cased role
text, first substring match wins, default 0; higher scores sort first and
ties fall back to the (modelled) Polish-locale name comparison ascending;
on the spec's example the order is President, Team Leader, Head of
Logistics, Member. -/
theorem team_sort_spec :
    (∀ role : String, containsSub (jsToLower role) "president" = true → roleScore role = 3) ∧
    (∀ role : String, containsSub (jsToLower role) "president" = false →
      containsSub (jsToLower role) "leader" = true → roleScore role = 2) ∧
    (∀ role : String, containsSub (jsToLower role) "president" = false →
      containsSub (jsToLower role) "leader" = false →
      containsSub (jsToLower role) "head" = true → roleScore role = 1) ∧
    (∀ role : String, containsSub (jsToLower role) "president" = false →
      containsSub (jsToLower role) "leader" = false →
      containsSub (jsToLower role) "head" = false → roleScore role = 0) ∧
    (∀ a b : TeamMember, roleScore b.role < roleScore a.role → teamCmp a b < 0) ∧
    (∀ a b : TeamMember, roleScore a.role = roleScore b.role →
      teamCmp a b = plCompare a.name b.name) ∧
    sortByCmp teamCmp [exTeamL, exTeamP, exTeamM, exTeamH] =
      [exTeamP, exTeamL, exTeamH, exTeamM] := by
  refine ⟨?_, ?_, ?_, ?_, ?_, ?_, by decide⟩
  · intro role h1
    simp [roleScore, rolePriority, List.find?, h1]
  · intro role h1 h2
    simp [roleScore, rolePriority, List.find?, h1, h2]
  · intro role h1 h2 h3
    simp [roleScore, rolePriority, List.find?, h1, h2, h3]
  · intro role h1 h2 h3
    simp [roleScore, rolePriority, List.find?, h1, h2, h3]
  · intro a b h
    have hne : roleScore a.role ≠ roleScore b.role := by omega
    simp only [teamCmp, hne, if_true, ne_eq, not_false_eq_true, ite_true]
    omega
  · intro a b h
    simp [teamCmp, h]

/-- Witness for the C5 theorem: its conditional parts applied at the
example roles and records. -/
theorem team_sort_spec_witness :
    roleScore "President" = 3 ∧
    roleScore "Team Leader" = 2 ∧
    roleScore "Head of Logistics" = 1 ∧
    roleScore "Member" = 0 ∧
    teamCmp exTeamP exTeamL < 0 ∧
    teamCmp exTeamM exTeamM = plCompare exTeamM.name exTeamM.name :=
  ⟨team_sort_spec.1 "President" (by decide),
   team_sort_spec.2.1 "Team Leader" (by decide) (by decide),
   team_sort_spec.2.2.1 "Head of Logistics" (by decide) (by decide) (by decide),
   team_sort_spec.2.2.2.1 "Member" (by decide) (by decide) (by decide),
   team_sort_spec.2.2.2.2.1 exTeamP exTeamL (by decide),
   team_sort_spec.2.2.2.2.2.1 exTeamM exTeamM rfl⟩

/-- C6: the news comparator uses reverse-lexicographic date comparison only
when both records have a (truthy) date; in every other case it falls back
to ascending slug comparison, so nothing places dated news before dateless
news — on the example a dated record with slug z sorts after a dateless
record with slug a. -/
theorem news_sort_spec :
    (∀ (a b : NewsRec) (da db : String), a.date = some da → da ≠ "" → b.date = some db →
      db ≠ "" → newsCmp a b = jsCompare db da) ∧
    (∀ a b : NewsRec, (strTruthy a.date && strTruthy b.date) = false →
      newsCmp a b = jsCompare a.slug b.slug) ∧
    newsCmp exNewsDated exNewsNoDate = 1 ∧
    newsCmp exNewsNoDate exNewsDated = -1 := by
  refine ⟨?_, ?_, by decide, by decide⟩
  · intro a b da db ha hda hb hdb
    simp [newsCmp, ha, hb, strTruthy, hda, hdb, optStr]
  · intro a b h
    simp [newsCmp, h]

/-- Witness for the C6 theorem: its conditional parts applied at the
example records. -/
theorem news_sort_spec_witness :
    newsCmp exNewsDated exNewsDated = jsCompare "2024-05-01" "2024-05-01" ∧
    newsCmp exNewsDated exNewsNoDate = jsCompare exNewsDated.slug exNewsNoDate.slug :=
  ⟨news_sort_spec.1 exNewsDated exNewsDated "2024-05-01" "2024-05-01" rfl (by decide) rfl
      (by decide),
   news_sort_spec.2.1 exNewsDated exNewsNoDate (by decide)⟩

/-- C7: asset resolution returns the public path of the first candidate in
list order whose existence probe succeeds, `none` when no candidate exists,
and on the example with only cover.jpg present it returns the cover.jpg
path. -/
theorem asset_resolution_spec :
    (∀ (p : String → Bool) (pub : String → String) (cands : List String),
      resolveAsset p pub cands = (cands.find? p).map pub) ∧
    (∀ (p : String → Bool) (pub : String → String) (cands : List String),
      (∀ c ∈ cands, p c = false) → resolveAsset p pub cands = none) ∧
    resolveAsset (fun c => c == "cover.jpg") (fun c => "/content/projects/p/" ++ c)
      ["cover.png", "cover.jpg"] = some "/content/projects/p/cover.jpg" := by
  have hfind : ∀ (p : String → Bool) (pub : String → String) (cands : List String),
      resolveAsset p pub cands = (cands.find? p).map pub := by
    intro p pub cands
    induction cands with
    | nil => simp [resolveAsset]
    | cons c cs ih =>
      simp only [resolveAsset, List.find?]
      by_cases hc : p c = true
      · simp [hc]
      · simp [hc, ih]
  refine ⟨hfind, ?_, by decide⟩
  intro p pub cands h
  rw [hfind]
  have hnone : cands.find? p = none :=
    List.find?_eq_none.mpr (fun x hx => by simp [h x hx])
  rw [hnone]
  rfl

/-- Witness for the C7 theorem: the no-candidate-exists part applied at a
concrete probe. -/
theorem asset_resolution_spec_witness :
    resolveAsset (fun _ => false) (fun c => c) ["cover.png"] = none :=
  asset_resolution_spec.2.1 (fun _ => false) (fun c => c) ["cover.png"] (by decide)

end Skylink

namespace Skylink

/-! Helper lemmas about the per-entry collector bodies. -/

lemma projMetaNone (fs : Fs) (d : Dirent) (h : fs.readMeta d.name = none) :
    projectOfDirent fs d = none := by
  unfold projectOfDirent
  cases hd : d.isDirectory <;> simp [hd, h]

lemma newsMetaNone (fs : Fs) (d : Dirent) (h : fs.readMeta d.name = none) :
    newsOfDirent fs d = none := by
  unfold newsOfDirent
  cases hd : d.isDirectory <;> simp [hd, h]

lemma teamMetaNone (fs : Fs) (d : Dirent) (h : fs.readMeta d.name = none) :
    teamOfDirent fs d = none := by
  unfold teamOfDirent
  cases hd : d.isDirectory <;> simp [hd, h]

lemma projNotDir (fs : Fs) (d : Dirent) (h : d.isDirectory = false) :
    projectOfDirent fs d = none := by
  unfold projectOfDirent
  simp [h]

lemma newsNotDir (fs : Fs) (d : Dirent) (h : d.isDirectory = false) :
    newsOfDirent fs d = none := by
  unfold newsOfDirent
  simp [h]

lemma teamNotDir (fs : Fs) (d : Dirent) (h : d.isDirectory = false) :
    teamOfDirent fs d = none := by
  unfold teamOfDirent
  simp [h]

lemma projSomeSlug (fs : Fs) (d : Dirent) (r : Proj) (h : projectOfDirent fs d = some r) :
    d.isDirectory = true ∧ r.slug = d.name := by
  unfold projectOfDirent at h
  cases hd : d.isDirectory with
  | false => rw [hd] at h; simp at h
  | true =>
    rw [hd] at h
    simp only [Bool.not_true, Bool.false_eq_true, if_false] at h
    cases hm : fs.readMeta d.name with
    | none => rw [hm] at h; simp at h
    | some mt =>
      rw [hm] at h
      have h2 := Option.some.inj h
      exact ⟨rfl, by rw [← h2]⟩

lemma newsSomeSlug (fs : Fs) (d : Dirent) (r : NewsRec) (h : newsOfDirent fs d = some r) :
    d.isDirectory = true ∧ r.slug = d.name := by
  unfold newsOfDirent at h
  cases hd : d.isDirectory with
  | false => rw [hd] at h; simp at h
  | true =>
    rw [hd] at h
    simp only [Bool.not_true, Bool.false_eq_true, if_false] at h
    cases hm : fs.readMeta d.name with
    | none => rw [hm] at h; simp at h
    | some mt =>
      rw [hm] at h
      have h2 := Option.some.inj h
      exact ⟨rfl, by rw [← h2]⟩

lemma teamSomeSlug (fs : Fs) (d : Dirent) (r : TeamMember) (h : teamOfDirent fs d = some r) :
    d.isDirectory = true ∧ r.slug = d.name := by
  unfold teamOfDirent at h
  cases hd : d.isDirectory with
  | false => rw [hd] at h; simp at h
  | true =>
    rw [hd] at h
    simp only [Bool.not_true, Bool.false_eq_true, if_false] at h
    cases hm : fs.readMeta d.name with
    | none => rw [hm] at h; simp at h
    | some mt =>
      rw [hm] at h
      have h2 := Option.some.inj h
      exact ⟨rfl, by rw [← h2]⟩

/-- C8: an item subdirectory whose metadata document cannot be read
contributes no record, and removing it from the listing leaves every
collection output unchanged — the failure never aborts the sibling items,
in all three collectors. -/
theorem missing_meta_skipped (rm : String → Option String) (ae : String → String → Bool)
    (gd : String → Except FsErr (List Dirent)) (pre post : List Dirent) (d : Dirent)
    (h : rm d.name = none) :
    collectProjects ⟨Except.ok (pre ++ d :: post), rm, ae, gd⟩ =
        collectProjects ⟨Except.ok (pre ++ post), rm, ae, gd⟩ ∧
      collectNews ⟨Except.ok (pre ++ d :: post), rm, ae, gd⟩ =
        collectNews ⟨Except.ok (pre ++ post), rm, ae, gd⟩ ∧
      collectTeam ⟨Except.ok (pre ++ d :: post), rm, ae, gd⟩ =
        collectTeam ⟨Except.ok (pre ++ post), rm, ae, gd⟩ := by
  refine ⟨?_, ?_, ?_⟩
  · simp [collectProjects, readDirIfExists, List.filterMap_append, List.filterMap_cons,
      projMetaNone ⟨Except.ok (pre ++ d :: post), rm, ae, gd⟩ d h,
      projMetaNone ⟨Except.ok (pre ++ post), rm, ae, gd⟩ d h]
    rfl
  · simp [collectNews, readDirIfExists, List.filterMap_append, List.filterMap_cons,
      newsMetaNone ⟨Except.ok (pre ++ d :: post), rm, ae, gd⟩ d h,
      newsMetaNone ⟨Except.ok (pre ++ post), rm, ae, gd⟩ d h]
    rfl
  · simp [collectTeam, readDirIfExists, List.filterMap_append, List.filterMap_cons,
      teamMetaNone ⟨Except.ok (pre ++ d :: post), rm, ae, gd⟩ d h,
      teamMetaNone ⟨Except.ok (pre ++ post), rm, ae, gd⟩ d h]
    rfl

/-- Witness for the C8 theorem at a concrete two-entry listing whose first
entry has no readable metadata document. -/
theorem missing_meta_skipped_witness :
    collectProjects ⟨Except.ok [⟨"p1", EntryKind.dir⟩, ⟨"p2", EntryKind.dir⟩],
        fun _ => none, fun _ _ => false, fun _ => Except.error FsErr.notFound⟩ =
      collectProjects ⟨Except.ok [⟨"p2", EntryKind.dir⟩],
        fun _ => none, fun _ _ => false, fun _ => Except.error FsErr.notFound⟩ ∧
    collectNews ⟨Except.ok [⟨"p1", EntryKind.dir⟩, ⟨"p2", EntryKind.dir⟩],
        fun _ => none, fun _ _ => false, fun _ => Except.error FsErr.notFound⟩ =
      collectNews ⟨Except.ok [⟨"p2", EntryKind.dir⟩],
        fun _ => none, fun _ _ => false, fun _ => Except.error FsErr.notFound⟩ ∧
    collectTeam ⟨Except.ok [⟨"p1", EntryKind.dir⟩, ⟨"p2", EntryKind.dir⟩],
        fun _ => none, fun _ _ => false, fun _ => Except.error FsErr.notFound⟩ =
      collectTeam ⟨Except.ok [⟨"p2", EntryKind.dir⟩],
        fun _ => none, fun _ _ => false, fun _ => Except.error FsErr.notFound⟩ :=
  missing_meta_skipped (fun _ => none) (fun _ _ => false) (fun _ => Except.error FsErr.notFound)
    [] [⟨"p2", EntryKind.dir⟩] ⟨"p1", EntryKind.dir⟩ rfl

/-- C10: non-directory entries of a collection root are skipped by all
three collectors, and every produced record corresponds to a directory
entry of the root listing whose name is its slug. -/
theorem records_from_subdirs :
    (∀ (fs : Fs) (d : Dirent), d.isDirectory = false →
      projectOfDirent fs d = none ∧ newsOfDirent fs d = none ∧ teamOfDirent fs d = none) ∧
    (∀ (fs : Fs) (r : Proj), r ∈ collectProjects fs →
      ∃ d ∈ readDirIfExists fs.rootDir, d.isDirectory = true ∧ r.slug = d.name) ∧
    (∀ (fs : Fs) (r : NewsRec), r ∈ collectNews fs →
      ∃ d ∈ readDirIfExists fs.rootDir, d.isDirectory = true ∧ r.slug = d.name) ∧
    (∀ (fs : Fs) (r : TeamMember), r ∈ collectTeam fs →
      ∃ d ∈ readDirIfExists fs.rootDir, d.isDirectory = true ∧ r.slug = d.name) := by
  refine ⟨?_, ?_, ?_, ?_⟩
  · intro fs d h
    exact ⟨projNotDir fs d h, newsNotDir fs d h, teamNotDir fs d h⟩
  · intro fs r hr
    rw [collectProjects, memSortByCmp] at hr
    obtain ⟨d, hd, hfd⟩ := List.mem_filterMap.mp hr
    exact ⟨d, hd, projSomeSlug fs d r hfd⟩
  · intro fs r hr
    rw [collectNews, memSortByCmp] at hr
    obtain ⟨d, hd, hfd⟩ := List.mem_filterMap.mp hr
    exact ⟨d, hd, newsSomeSlug fs d r hfd⟩
  · intro fs r hr
    rw [collectTeam, memSortByCmp] at hr
    obtain ⟨d, hd, hfd⟩ := List.mem_filterMap.mp hr
    exact ⟨d, hd, teamSomeSlug fs d r hfd⟩

/-- Witness for the C10 theorem: a file entry produces nothing, and the
records of a one-directory snapshot trace back to that directory. -/
theorem records_from_subdirs_witness :
    (projectOfDirent fsDenied ⟨"f", EntryKind.file⟩ = none ∧
      newsOfDirent fsDenied ⟨"f", EntryKind.file⟩ = none ∧
      teamOfDirent fsDenied ⟨"f", EntryKind.file⟩ = none) ∧
    (∃ d ∈ readDirIfExists fsOne.rootDir, d.isDirectory = true ∧ rProjOne.slug = d.name) ∧
    (∃ d ∈ readDirIfExists fsOne.rootDir, d.isDirectory = true ∧ rNewsOne.slug = d.name) ∧
    (∃ d ∈ readDirIfExists fsOne.rootDir, d.isDirectory = true ∧ rTeamOne.slug = d.name) :=
  ⟨records_from_subdirs.1 fsDenied ⟨"f", EntryKind.file⟩ rfl,
   records_from_subdirs.2.1 fsOne rProjOne (by simp [collectProjects, collectNews, collectTeam, fsOne, readDirIfExists, projectOfDirent, newsOfDirent, teamOfDirent, parseMetaTxt, splitSep, splitSepAux, metaDelim, jsLines, splitLinesAux, parseHead, headInsertLine, trimChars, isJsWhitespace, MetaDoc.get, resolveAsset, coverCandidates, photoCandidates, sortByCmp, insertCmp, jsTrim, charIndexOf, objInsert, rProjOne, rNewsOne, rTeamOne, List.filterMap_cons, List.foldl, Dirent.isDirectory, Dirent.isFile]),
   records_from_subdirs.2.2.1 fsOne rNewsOne (by simp [collectProjects, collectNews, collectTeam, fsOne, readDirIfExists, projectOfDirent, newsOfDirent, teamOfDirent, parseMetaTxt, splitSep, splitSepAux, metaDelim, jsLines, splitLinesAux, parseHead, headInsertLine, trimChars, isJsWhitespace, MetaDoc.get, resolveAsset, coverCandidates, photoCandidates, sortByCmp, insertCmp, jsTrim, charIndexOf, objInsert, rProjOne, rNewsOne, rTeamOne, List.filterMap_cons, List.foldl, Dirent.isDirectory, Dirent.isFile]),
   records_from_subdirs.2.2.2 fsOne rTeamOne (by simp [collectProjects, collectNews, collectTeam, fsOne, readDirIfExists, projectOfDirent, newsOfDirent, teamOfDirent, parseMetaTxt, splitSep, splitSepAux, metaDelim, jsLines, splitLinesAux, parseHead, headInsertLine, trimChars, isJsWhitespace, MetaDoc.get, resolveAsset, coverCandidates, photoCandidates, sortByCmp, insertCmp, jsTrim, charIndexOf, objInsert, rProjOne, rNewsOne, rTeamOne, List.filterMap_cons, List.foldl, Dirent.isDirectory, Dirent.isFile])⟩

/-- C1 counterexample: a permission-denied failure of the collection-root
listing does not escalate anywhere — the bare catch of `readDirIfExists`
turns ANY listing failure into an empty listing, so each collector
produces a (normal, empty) collection output instead of aborting the run. -/
theorem listing_failure_contained_cex :
    readDirIfExists (Except.error FsErr.permissionDenied) = [] ∧
    collectProjects fsDenied = [] ∧
    collectNews fsDenied = [] ∧
    collectTeam fsDenied = [] :=
  ⟨rfl, rfl, rfl, rfl⟩

/-- C1 amended: every listing failure of a collection root, whatever its
reason, is contained as an empty collection output; no failure propagates
out of a collector. -/
theorem listing_failure_contained (e : FsErr) (rm : String → Option String)
    (ae : String → String → Bool) (gd : String → Except FsErr (List Dirent)) :
    collectProjects ⟨Except.error e, rm, ae, gd⟩ = [] ∧
    collectNews ⟨Except.error e, rm, ae, gd⟩ = [] ∧
    collectTeam ⟨Except.error e, rm, ae, gd⟩ = [] :=
  ⟨rfl, rfl, rfl⟩

/-- Witness for the C1 amended theorem at the permission-denied reason. -/
theorem listing_failure_contained_witness :
    collectProjects ⟨Except.error FsErr.permissionDenied, fun _ => none, fun _ _ => false,
        fun _ => Except.error FsErr.notFound⟩ = [] ∧
    collectNews ⟨Except.error FsErr.permissionDenied, fun _ => none, fun _ _ => false,
        fun _ => Except.error FsErr.notFound⟩ = [] ∧
    collectTeam ⟨Except.error FsErr.permissionDenied, fun _ => none, fun _ _ => false,
        fun _ => Except.error FsErr.notFound⟩ = [] :=
  listing_failure_contained FsErr.permissionDenied (fun _ => none) (fun _ _ => false)
    (fun _ => Except.error FsErr.notFound)

end Skylink

namespace Skylink

/-! Helper lemmas for the stats parser. -/

lemma memObjInsert {α : Type} {m : List (String × α)} {k : String} {v : α}
    {x : String × α} (h : x ∈ objInsert m k v) : x ∈ m ∨ x = (k, v) := by
  unfold objInsert at h
  by_cases hc : m.any (fun p => p.1 == k) = true
  · rw [if_pos hc] at h
    obtain ⟨p, hp, hpe⟩ := List.mem_map.mp h
    by_cases hpk : p.1 == k
    · right; rw [if_pos hpk] at hpe; exact hpe.symm
    · left; rw [if_neg hpk] at hpe; exact hpe ▸ hp
  · rw [if_neg hc] at h
    rcases List.mem_append.mp h with h1 | h1
    · left; exact h1
    · right; simpa using h1

lemma statsLineOk (m : List (String × StatsVal)) (line : String)
    (h : ∀ kv ∈ m, statsOk kv) : ∀ kv ∈ statsInsertLine m line, statsOk kv := by
  intro kv hkv
  simp only [statsInsertLine] at hkv
  split at hkv
  · exact h kv hkv
  · split at hkv
    · exact h kv hkv
    · rename_i idx hcolon
      split at hkv
      · rename_i q heq
        rcases memObjInsert hkv with h2 | h2
        · exact h kv h2
        · rw [h2]
          exact ⟨jsTrim ⟨line.data.drop (idx + 1)⟩, heq⟩
      · rename_i heq
        rcases memObjInsert hkv with h2 | h2
        · exact h kv h2
        · rw [h2]
          exact heq

lemma statsFoldOk : ∀ (lines : List String) (m : List (String × StatsVal)),
    (∀ kv ∈ m, statsOk kv) → ∀ kv ∈ lines.foldl statsInsertLine m, statsOk kv := by
  intro lines
  induction lines with
  | nil => intro m h; simpa using h
  | cons l ls ih =>
    intro m h
    simp only [List.foldl_cons]
    exact ih (statsInsertLine m l) (statsLineOk m l h)

/-- C9: a missing stats document yields an empty mapping; processing a
document is the line-by-line fold of the per-line assignment; for EVERY
line containing a colon (at first index `idx`) that assignment stores,
under the trimmed key, the coerced number exactly when the (modelled)
numeric coercion of the trimmed value is finite and otherwise the trimmed
value string itself; blank lines and lines without a colon store nothing;
the example document stores 42 as a number and "true" as a string; and
every string stored anywhere in an output map has a non-finite coercion. -/
theorem stats_spec :
    collectStats none = [] ∧
    (∀ txt : String, collectStats (some txt) = (jsLines txt).foldl statsInsertLine []) ∧
    (∀ (m : List (String × StatsVal)) (line : String) (idx : ℕ),
      (trimChars line.data).isEmpty = false → charIndexOf line ':' = some idx →
      ((∀ q : ℚ, jsNumber (jsTrim ⟨line.data.drop (idx + 1)⟩) = some q →
          statsInsertLine m line =
            objInsert m (jsTrim ⟨line.data.take idx⟩) (StatsVal.num q)) ∧
        (jsNumber (jsTrim ⟨line.data.drop (idx + 1)⟩) = none →
          statsInsertLine m line =
            objInsert m (jsTrim ⟨line.data.take idx⟩)
              (StatsVal.str (jsTrim ⟨line.data.drop (idx + 1)⟩))))) ∧
    (∀ (m : List (String × StatsVal)) (line : String),
      ((trimChars line.data).isEmpty = true → statsInsertLine m line = m) ∧
      (charIndexOf line ':' = none → statsInsertLine m line = m)) ∧
    collectStats (some "users: 42\nactive: true") =
      [("users", StatsVal.num 42), ("active", StatsVal.str "true")] ∧
    (∀ (txt k s : String), (k, StatsVal.str s) ∈ collectStats (some txt) →
      jsNumber s = none) := by
  refine ⟨rfl, fun _ => rfl, ?_, ?_, ?_, ?_⟩
  · intro m line idx h1 hidx
    constructor
    · intro q hq
      simp only [statsInsertLine, h1, Bool.false_eq_true, if_false, hidx, hq]
    · intro hq
      simp only [statsInsertLine, h1, Bool.false_eq_true, if_false, hidx, hq]
  · intro m line
    constructor
    · intro h1
      simp only [statsInsertLine, h1, if_true]
    · intro hc
      simp only [statsInsertLine, hc, ite_self]
  · have hn : natOfDigits ['4', '2'] = 42 := rfl
    have hq : ((natOfDigits ['4', '2'] : ℚ) * (10 : ℚ) ^ (0 : ℤ)) = 42 := by
      rw [hn]; norm_num
    have hval : collectStats (some "users: 42\nactive: true") =
        [("users", StatsVal.num ((natOfDigits ['4', '2'] : ℚ) * (10 : ℚ) ^ (0 : ℤ))),
          ("active", StatsVal.str "true")] := rfl
    rw [hval, hq]
  · intro txt k s hm
    exact statsFoldOk (jsLines txt) [] (by simp) (k, StatsVal.str s) hm

/-- Witness for the C9 theorem: its conditional parts applied at concrete
lines — a finitely-coercible value line, a non-coercible value line, a
blank line, a colon-free line — and at a concrete stored string. -/
theorem stats_spec_witness :
    statsInsertLine [] "users: 42" =
      objInsert [] (jsTrim ⟨"users: 42".data.take 5⟩)
        (StatsVal.num ((natOfDigits ['4', '2'] : ℚ) * (10 : ℚ) ^ (0 : ℤ))) ∧
    statsInsertLine [] "active: true" =
      objInsert [] (jsTrim ⟨"active: true".data.take 6⟩)
        (StatsVal.str (jsTrim ⟨"active: true".data.drop 7⟩)) ∧
    statsInsertLine [("k", StatsVal.str "v")] " " = [("k", StatsVal.str "v")] ∧
    statsInsertLine [("k", StatsVal.str "v")] "abc" = [("k", StatsVal.str "v")] ∧
    jsNumber "true" = none :=
  ⟨(stats_spec.2.2.1 [] "users: 42" 5 rfl rfl).1 _ rfl,
   (stats_spec.2.2.1 [] "active: true" 6 rfl rfl).2 rfl,
   (stats_spec.2.2.2.1 [("k", StatsVal.str "v")] " ").1 rfl,
   (stats_spec.2.2.2.1 [("k", StatsVal.str "v")] "abc").2 rfl,
   stats_spec.2.2.2.2.2 "active: true" "active" "true" (by decide)⟩

end Skylink
